import Mathlib

/-!
Shallow embedding of `src/script/gen-ball.py` (the grid-line mask generator
`line_mask_equirect` and its helpers), pointwise per pixel.

Modelling conventions:
* numpy float64 arithmetic is modelled over `ℝ`; the HxW arrays of the
  vectorized code become functions of the pixel coordinates `(x y : ℕ)`
  (every array of the source is a pointwise function of the pixel, so this
  is exact).
* Python's float `%` operator (used in the longitude wrap) is
  `a - m * ⌊a / m⌋`, which for `m > 0` returns a value in `[0, m)` for any
  sign of `a`, exactly like Python.
* `np.round` rounds halves to even, which is modelled by `np_round`.
* numpy division by a zero step in `dist_to_grid` produces NaN; fallible
  values are modelled with `Option ℝ`, `none` standing for NaN.
-/

namespace GenBall

noncomputable section

/-- The module-level configuration constants of `gen-ball.py`
(`W`, `H`, `SEAM_OFFSET_DEG`, the four step angles in degrees, the two
anti-alias widths, the two emphasis scales, `UV_ORIGIN`, `POLE_TAPER`). -/
structure Config where
  w : ℕ
  h : ℕ
  seamDeg : ℝ
  dlonMajorDeg : ℝ
  dlatMajorDeg : ℝ
  dlonMinorDeg : ℝ
  dlatMinorDeg : ℝ
  aaMajor : ℝ
  aaMinor : ℝ
  eqScale : ℝ
  pmScale : ℝ
  uvTopLeft : Bool
  poleTaper : Bool

/-- The constant values at the top of `gen-ball.py`. -/
def defaultCfg : Config where
  w := 2048
  h := 1024
  seamDeg := 0
  dlonMajorDeg := 60
  dlatMajorDeg := 30
  dlonMinorDeg := 15
  dlatMinorDeg := 15
  aaMajor := 3.8
  aaMinor := 3.1
  eqScale := 2.0
  pmScale := 1.8
  uvTopLeft := true
  poleTaper := true

/-- `math.radians`. -/
def radians (d : ℝ) : ℝ := d * Real.pi / 180

/-- Python's float `%` (sign of the result follows the divisor):
`a % m = a - m * floor (a / m)`. -/
def pymod (a m : ℝ) : ℝ := a - m * ⌊a / m⌋

/-- Line 57 of the source: `lam = (lam + math.pi) % (2*math.pi) - math.pi`. -/
def wrapLon (t : ℝ) : ℝ := pymod (t + Real.pi) (2 * Real.pi) - Real.pi

/-- Longitude of the pixel center in column `x`
(lines 52, 54, 56, 57 of the source). -/
def lam (c : Config) (x : ℕ) : ℝ :=
  wrapLon (2 * Real.pi * (((x : ℝ) + 0.5) / c.w) - Real.pi + radians c.seamDeg)

/-- Latitude of the pixel center in row `y`
(lines 53, 55, 58-61 of the source). -/
def phi (c : Config) (y : ℕ) : ℝ :=
  if c.uvTopLeft then Real.pi * (0.5 - ((y : ℝ) + 0.5) / c.h)
  else Real.pi * (((y : ℝ) + 0.5) / c.h - 0.5)

/-- `np.round`: round half to even. -/
def np_round (x : ℝ) : ℤ :=
  if Int.fract x = 1 / 2 then (if Even ⌊x⌋ then ⌊x⌋ else ⌊x⌋ + 1) else round x

/-- `dist_to_grid` (lines 66-68): `k = np.round(angle/step)`;
`|angle - k * step|`. Total version, meaningful for `step ≠ 0`. -/
def dist_to_grid (angle step : ℝ) : ℝ :=
  |angle - (np_round (angle / step) : ℝ) * step|

/-- `dist_to_grid` with the numpy division-by-zero behaviour made explicit:
a zero step divides by zero and produces NaN (`none`). -/
def dist_to_gridE (angle step : ℝ) : Option ℝ :=
  if step = 0 then none else some (dist_to_grid angle step)

/-- `np.clip`. -/
def clip (a lo hi : ℝ) : ℝ := min (max a lo) hi

/-- Line 79: `pm_emph = (|lam| < 1e-6) | (||lam| - pi/2| < 1e-6)`, as the
0/1 float the boolean array becomes in line 80. -/
def pm_ind (l : ℝ) : ℝ :=
  if |l| < 1e-6 ∨ abs (|l| - Real.pi / 2) < 1e-6 then 1 else 0

/-- Line 82: `eq_emph = (|phi| < 1e-6)`, as the 0/1 float of line 83. -/
def eq_ind (p : ℝ) : ℝ := if |p| < 1e-6 then 1 else 0

/-- Lines 85-93: the pole-taper factor `np.clip(np.cos(phi), 0.2, 1.0)`
when `POLE_TAPER` is set, else no taper. -/
def taper (c : Config) (p : ℝ) : ℝ :=
  if c.poleTaper then clip (Real.cos p) 0.2 1.0 else 1

/-- Lines 76, 80, 87: longitude-major half-width at a pixel with longitude
`l` and latitude `p`. -/
def w_lon_major (c : Config) (l p : ℝ) : ℝ :=
  c.aaMajor * (1 + (c.pmScale - 1) * pm_ind l) * taper c p

/-- Lines 77, 83, 88: latitude-major half-width at a pixel with latitude `p`. -/
def w_lat_major (c : Config) (p : ℝ) : ℝ :=
  c.aaMajor * (1 + (c.eqScale - 1) * eq_ind p) * taper c p

/-- Lines 89, 92: longitude-minor half-width. -/
def w_lon_minor (c : Config) (p : ℝ) : ℝ := c.aaMinor * taper c p

/-- Lines 90, 93: latitude-minor half-width. -/
def w_lat_minor (c : Config) (p : ℝ) : ℝ := c.aaMinor * taper c p

/-- Line 63: `px_per_rad_x = W / (2*pi)`. -/
def pxX (c : Config) : ℝ := c.w / (2 * Real.pi)

/-- Line 64: `px_per_rad_y = H / pi`. -/
def pxY (c : Config) : ℝ := c.h / Real.pi

/-- `aa_from` (lines 100-102):
`t = 1 - clip(dist/(width + 1e-9), 0, 1)`; returns `t*t`. -/
def aa_from (d w : ℝ) : ℝ :=
  (1 - clip (d / (w + 1e-9)) 0 1) * (1 - clip (d / (w + 1e-9)) 0 1)

/-- Line 70: the longitude-major distance field. -/
def dlon_major (c : Config) (x : ℕ) : Option ℝ :=
  dist_to_gridE (lam c x) (radians c.dlonMajorDeg)

/-- Line 71: the latitude-major distance field. -/
def dlat_major (c : Config) (y : ℕ) : Option ℝ :=
  dist_to_gridE (phi c y) (radians c.dlatMajorDeg)

/-- Line 72: the longitude-minor distance field, the constant `1e9` when the
minor longitude step is the falsy `0`. -/
def dlon_minor (c : Config) (x : ℕ) : Option ℝ :=
  if c.dlonMinorDeg = 0 then some 1e9
  else dist_to_gridE (lam c x) (radians c.dlonMinorDeg)

/-- Line 73: the latitude-minor distance field, the constant `1e9` when the
minor latitude step is the falsy `0`. -/
def dlat_minor (c : Config) (y : ℕ) : Option ℝ :=
  if c.dlatMinorDeg = 0 then some 1e9
  else dist_to_gridE (phi c y) (radians c.dlatMinorDeg)

/-- Lines 95, 104: longitude-major coverage at pixel `(x, y)`. -/
def t_lon_major (c : Config) (x y : ℕ) : Option ℝ :=
  (dlon_major c x).map fun d =>
    aa_from (d * pxX c) (w_lon_major c (lam c x) (phi c y))

/-- Lines 96, 105: latitude-major coverage at pixel `(x, y)`. -/
def t_lat_major (c : Config) (x y : ℕ) : Option ℝ :=
  (dlat_major c y).map fun d => aa_from (d * pxY c) (w_lat_major c (phi c y))

/-- Lines 97, 106: longitude-minor coverage at pixel `(x, y)`. -/
def t_lon_minor (c : Config) (x y : ℕ) : Option ℝ :=
  (dlon_minor c x).map fun d => aa_from (d * pxX c) (w_lon_minor c (phi c y))

/-- Lines 98, 107: latitude-minor coverage at pixel `(x, y)`. -/
def t_lat_minor (c : Config) (x y : ℕ) : Option ℝ :=
  (dlat_minor c y).map fun d => aa_from (d * pxY c) (w_lat_minor c (phi c y))

/-- Lines 109-111: the composite intensity mask
`t = max(max(t_lon_major, t_lat_major), max(t_lon_minor, t_lat_minor))`
at pixel `(x, y)`; `none` when a NaN reached the composite. -/
def line_mask_equirect (c : Config) (x y : ℕ) : Option ℝ :=
  match t_lon_major c x y, t_lat_major c x y, t_lon_minor c x y,
      t_lat_minor c x y with
  | some a, some b, some u, some v => some (max (max a b) (max u v))
  | _, _, _, _ => none

/-- The configuration with `POLE_TAPER = False` and everything else as in
the source (used for claim C6, which disables the taper). -/
def cfgNoTaper : Config := { defaultCfg with poleTaper := false }

/-- The degenerate configuration with a zero major longitude step
(`DLON_DEG_MAJOR = 0`), everything else as in the source. -/
def cfgZeroLonMajor : Config := { defaultCfg with dlonMajorDeg := 0 }

/-- The configuration with both minor families disabled by a zero step. -/
def cfgNoMinor : Config :=
  { defaultCfg with dlonMinorDeg := 0, dlatMinorDeg := 0 }

/-- The configuration with seam offset `-45/512` degrees, i.e. `-π/2048`
radians (used to probe the wrap at the seam for claim C3). -/
def cfgSeam : Config := { defaultCfg with seamDeg := -45 / 512 }

end

/-! ### Basic facts about the embedded primitives -/

theorem pymod_eq_mul_fract {a m : ℝ} (hm : m ≠ 0) :
    pymod a m = m * Int.fract (a / m) := by
  unfold pymod
  rw [Int.fract, mul_sub]
  have hma : m * (a / m) = a := by field_simp
  rw [hma]

theorem pymod_nonneg (a : ℝ) {m : ℝ} (hm : 0 < m) : 0 ≤ pymod a m := by
  rw [pymod_eq_mul_fract hm.ne']
  exact mul_nonneg hm.le (Int.fract_nonneg _)

theorem pymod_lt (a : ℝ) {m : ℝ} (hm : 0 < m) : pymod a m < m := by
  rw [pymod_eq_mul_fract hm.ne']
  calc m * Int.fract (a / m) < m * 1 := by
        exact (mul_lt_mul_left hm).mpr (Int.fract_lt_one _)
    _ = m := mul_one m

theorem pymod_eq_self {a m : ℝ} (hm : 0 < m) (h0 : 0 ≤ a) (h1 : a < m) :
    pymod a m = a := by
  unfold pymod
  have hfl : ⌊a / m⌋ = 0 :=
    Int.floor_eq_zero_iff.mpr
      (Set.mem_Ico.mpr ⟨div_nonneg h0 hm.le, (div_lt_one hm).mpr h1⟩)
  rw [hfl]
  simp

theorem np_round_intCast (n : ℤ) : np_round (n : ℝ) = n := by
  unfold np_round
  rw [Int.fract_intCast, if_neg (by norm_num), round_intCast]

theorem np_round_int_add {ε : ℝ} (n : ℤ) (h : |ε| < 1 / 2) :
    np_round ((n : ℝ) + ε) = n := by
  obtain ⟨h1, h2⟩ := abs_lt.mp h
  have hfr : Int.fract ((n : ℝ) + ε) ≠ 1 / 2 := by
    rw [Int.fract_int_add]
    rcases le_or_lt 0 ε with hε | hε
    · rw [Int.fract_eq_self.mpr ⟨hε, by linarith⟩]
      exact ne_of_lt h2
    · have hfl : ⌊ε⌋ = -1 := by
        rw [Int.floor_eq_iff]
        constructor <;> push_cast <;> linarith
      rw [Int.fract, hfl]
      push_cast
      intro hc
      linarith
  unfold np_round
  rw [if_neg hfr, add_comm, round_add_int,
    round_eq_zero_iff.mpr (Set.mem_Ico.mpr ⟨by linarith, h2⟩), zero_add]

theorem abs_sub_np_round (x : ℝ) : |x - (np_round x : ℝ)| ≤ 1 / 2 := by
  unfold np_round
  by_cases hfr : Int.fract x = 1 / 2
  · have hx : x - (⌊x⌋ : ℝ) = 1 / 2 := by rw [Int.self_sub_floor, hfr]
    rw [if_pos hfr]
    by_cases he : Even ⌊x⌋
    · rw [if_pos he, hx, abs_le]
      constructor <;> norm_num
    · rw [if_neg he]
      push_cast
      have hx2 : x - ((⌊x⌋ : ℝ) + 1) = -(1 / 2) := by linarith
      rw [hx2, abs_le]
      constructor <;> norm_num
  · rw [if_neg hfr]
    exact abs_sub_round x

theorem dist_to_grid_nonneg (a s : ℝ) : 0 ≤ dist_to_grid a s := abs_nonneg _

theorem dist_to_grid_le_half {s : ℝ} (a : ℝ) (hs : 0 < s) :
    dist_to_grid a s ≤ s / 2 := by
  unfold dist_to_grid
  have h1 : a - (np_round (a / s) : ℝ) * s = (a / s - np_round (a / s)) * s := by
    field_simp
    ring
  rw [h1, abs_mul, abs_of_pos hs]
  calc |a / s - (np_round (a / s) : ℝ)| * s ≤ 1 / 2 * s :=
        mul_le_mul_of_nonneg_right (abs_sub_np_round _) hs.le
    _ = s / 2 := by ring

theorem dist_to_grid_multiple {s : ℝ} (k : ℤ) (hs : s ≠ 0) :
    dist_to_grid ((k : ℝ) * s) s = 0 := by
  unfold dist_to_grid
  rw [mul_div_cancel_right₀ _ hs, np_round_intCast]
  simp

theorem clip_le_hi (a lo hi : ℝ) : clip a lo hi ≤ hi := min_le_right _ _

theorem lo_le_clip {lo hi : ℝ} (a : ℝ) (h : lo ≤ hi) : lo ≤ clip a lo hi :=
  le_min (le_max_right _ _) h

theorem clip_eq_hi {a lo hi : ℝ} (h : hi ≤ a) : clip a lo hi = hi := by
  unfold clip
  rw [min_eq_right]
  exact le_trans h (le_max_left _ _)

theorem aa_from_nonneg (d w : ℝ) : 0 ≤ aa_from d w := mul_self_nonneg _

theorem aa_from_le_one (d w : ℝ) : aa_from d w ≤ 1 := by
  unfold aa_from
  have h0 : 0 ≤ clip (d / (w + 1e-9)) 0 1 := lo_le_clip _ (by norm_num)
  have h1 : clip (d / (w + 1e-9)) 0 1 ≤ 1 := clip_le_hi _ _ _
  nlinarith

theorem aa_from_eq_zero {d w : ℝ} (hw : 0 ≤ w) (hd : w + 1e-9 ≤ d) :
    aa_from d w = 0 := by
  have hpos : (0 : ℝ) < w + 1e-9 := add_pos_of_nonneg_of_pos hw (by norm_num)
  have h1 : (1 : ℝ) ≤ d / (w + 1e-9) := (one_le_div hpos).mpr hd
  unfold aa_from
  rw [clip_eq_hi h1]
  ring

theorem aa_from_zero (w : ℝ) : aa_from 0 w = 1 := by
  unfold aa_from
  rw [zero_div]
  have hc : clip 0 0 1 = (0 : ℝ) := by
    unfold clip
    norm_num
  rw [hc]
  ring

theorem taper_le_one (c : Config) (p : ℝ) : taper c p ≤ 1 := by
  unfold taper
  split
  · exact le_trans (clip_le_hi _ _ _) (by norm_num)
  · exact le_refl 1

theorem taper_ge_floor (c : Config) (p : ℝ) : 0.2 ≤ taper c p := by
  unfold taper
  split
  · exact lo_le_clip _ (by norm_num)
  · norm_num

theorem taper_nonneg (c : Config) (p : ℝ) : 0 ≤ taper c p :=
  le_trans (by norm_num) (taper_ge_floor c p)

theorem radians_ne_zero {d : ℝ} (hd : d ≠ 0) : radians d ≠ 0 := by
  unfold radians
  exact div_ne_zero (mul_ne_zero hd Real.pi_ne_zero) (by norm_num)

/-! ### Reductions of the per-family coverage fields -/

theorem t_lon_major_eq (c : Config) (x y : ℕ)
    (h : radians c.dlonMajorDeg ≠ 0) :
    t_lon_major c x y =
      some (aa_from (dist_to_grid (lam c x) (radians c.dlonMajorDeg) * pxX c)
        (w_lon_major c (lam c x) (phi c y))) := by
  unfold t_lon_major dlon_major dist_to_gridE
  rw [if_neg h]
  rfl

theorem t_lat_major_eq (c : Config) (x y : ℕ)
    (h : radians c.dlatMajorDeg ≠ 0) :
    t_lat_major c x y =
      some (aa_from (dist_to_grid (phi c y) (radians c.dlatMajorDeg) * pxY c)
        (w_lat_major c (phi c y))) := by
  unfold t_lat_major dlat_major dist_to_gridE
  rw [if_neg h]
  rfl

theorem t_lon_minor_eq (c : Config) (x y : ℕ) (hd : c.dlonMinorDeg ≠ 0) :
    t_lon_minor c x y =
      some (aa_from (dist_to_grid (lam c x) (radians c.dlonMinorDeg) * pxX c)
        (w_lon_minor c (phi c y))) := by
  unfold t_lon_minor dlon_minor dist_to_gridE
  rw [if_neg hd, if_neg (radians_ne_zero hd)]
  rfl

theorem t_lat_minor_eq (c : Config) (x y : ℕ) (hd : c.dlatMinorDeg ≠ 0) :
    t_lat_minor c x y =
      some (aa_from (dist_to_grid (phi c y) (radians c.dlatMinorDeg) * pxY c)
        (w_lat_minor c (phi c y))) := by
  unfold t_lat_minor dlat_minor dist_to_gridE
  rw [if_neg hd, if_neg (radians_ne_zero hd)]
  rfl

theorem line_mask_eq {c : Config} {x y : ℕ} {a b u v : ℝ}
    (h1 : t_lon_major c x y = some a) (h2 : t_lat_major c x y = some b)
    (h3 : t_lon_minor c x y = some u) (h4 : t_lat_minor c x y = some v) :
    line_mask_equirect c x y = some (max (max a b) (max u v)) := by
  unfold line_mask_equirect
  rw [h1, h2, h3, h4]

/-! ### The coordinate mapper at the configured resolution -/

theorem lam_defaultCfg_eq {x : ℕ} (hx : x < 2048) :
    lam defaultCfg x = Real.pi * (2 * (x : ℝ) + 1 - 2048) / 2048 := by
  unfold lam wrapLon
  have hw : ((defaultCfg.w : ℕ) : ℝ) = 2048 := by norm_num [defaultCfg]
  have hs : radians defaultCfg.seamDeg = 0 := by
    norm_num [defaultCfg, radians]
  rw [hw, hs]
  have harg : 2 * Real.pi * (((x : ℝ) + 0.5) / 2048) - Real.pi + 0 + Real.pi =
      Real.pi * (2 * (x : ℝ) + 1) / 2048 := by ring
  rw [harg]
  have hx' : (x : ℝ) ≤ 2047 := by exact_mod_cast Nat.lt_succ_iff.mp hx
  have h0 : 0 ≤ Real.pi * (2 * (x : ℝ) + 1) / 2048 := by positivity
  have h1 : Real.pi * (2 * (x : ℝ) + 1) / 2048 < 2 * Real.pi := by
    nlinarith [Real.pi_pos]
  rw [pymod_eq_self (by positivity) h0 h1]
  ring

theorem phi_defaultCfg_eq (y : ℕ) :
    phi defaultCfg y = Real.pi * (1023 - 2 * (y : ℝ)) / 2048 := by
  unfold phi
  have ht : defaultCfg.uvTopLeft = true := rfl
  have hh : ((defaultCfg.h : ℕ) : ℝ) = 1024 := by norm_num [defaultCfg]
  rw [ht, if_pos rfl, hh]
  ring

theorem one_le_abs_cast_of_odd {n : ℤ} (h : Odd n) : (1 : ℝ) ≤ |(n : ℝ)| := by
  have h0 : n ≠ 0 := by
    rintro rfl
    exact (Int.not_odd_iff_even.mpr even_zero) h
  have h1 : (1 : ℤ) ≤ |n| := Int.one_le_abs h0
  calc (1 : ℝ) = ((1 : ℤ) : ℝ) := by norm_num
    _ ≤ ((|n| : ℤ) : ℝ) := by exact_mod_cast h1
    _ = |(n : ℝ)| := by push_cast; rfl

/-! ### Claim theorems -/

/-- C10: for every step angle `s > 0` and every input angle `a`, the
distance returned by `dist_to_grid` lies in the closed interval `[0, s/2]`:
rounding picks the nearest multiple of `s`. -/
theorem C10_dist_to_grid_range (a s : ℝ) (hs : 0 < s) :
    0 ≤ dist_to_grid a s ∧ dist_to_grid a s ≤ s / 2 :=
  ⟨dist_to_grid_nonneg a s, dist_to_grid_le_half a hs⟩

/-- Witness for C10 at `a = 5`, `s = 2`. -/
theorem C10_dist_to_grid_range_witness :
    0 ≤ dist_to_grid 5 2 ∧ dist_to_grid 5 2 ≤ 2 / 2 :=
  C10_dist_to_grid_range 5 2 (by norm_num)

/-- C5: at a longitude exactly on a major longitude line
(`l = k * step_lon_major` for an integer `k`, the step being the configured
`DLON_DEG_MAJOR` in radians), the longitude-major distance field is
`some 0`, and the coverage obtained by `aa_from` from the resulting zero
pixel distance and any nonnegative width is exactly `1`. -/
theorem C5_on_major_line_distance_zero_coverage_one (l w : ℝ) (k : ℤ)
    (hl : l = (k : ℝ) * radians defaultCfg.dlonMajorDeg) (hw : 0 ≤ w) :
    dist_to_gridE l (radians defaultCfg.dlonMajorDeg) = some 0 ∧
      aa_from 0 w = 1 := by
  have hd : defaultCfg.dlonMajorDeg ≠ 0 := by norm_num [defaultCfg]
  have hr := radians_ne_zero hd
  constructor
  · unfold dist_to_gridE
    rw [if_neg hr, hl, dist_to_grid_multiple k hr]
  · exact aa_from_zero w

/-- Witness for C5 at the line `k = 1` (l = one major step) and width 1. -/
theorem C5_on_major_line_distance_zero_coverage_one_witness :
    dist_to_gridE (radians defaultCfg.dlonMajorDeg)
        (radians defaultCfg.dlonMajorDeg) = some 0 ∧ aa_from 0 1 = 1 :=
  C5_on_major_line_distance_zero_coverage_one _ 1 1 (by push_cast; ring)
    (by norm_num)

/-- C2 counterexample: at pixel distance exactly equal to the half-width
(`d = w = 1`, so distance ≥ width), the coverage `aa_from 1 1` is strictly
positive rather than `0`: the `1e-9` guard in the denominator leaves
`d / (w + 1e-9) < 1`, so the clip does not saturate and
`t = 1 - 1/(1 + 1e-9) > 0`. -/
theorem C2_coverage_at_exact_width_positive : 0 < aa_from 1 1 := by
  unfold aa_from
  have hlt : clip (1 / (1 + 1e-9)) 0 1 < 1 := by
    unfold clip
    have hq : (1 : ℝ) / (1 + 1e-9) < 1 := by norm_num
    calc min (max ((1 : ℝ) / (1 + 1e-9)) 0) 1
        ≤ max ((1 : ℝ) / (1 + 1e-9)) 0 := min_le_left _ _
      _ < 1 := max_lt hq (by norm_num)
  have ht : (0 : ℝ) < 1 - clip (1 / (1 + 1e-9)) 0 1 := by linarith
  exact mul_pos ht ht

/-- C2 amended: once each family's pixel distance exceeds that family's
half-width by at least the `1e-9` denominator guard (`d ≥ w + 1e-9`), every
coverage is exactly `0`, and therefore so is their pixel-wise maximum, the
composite mask: coverage has finite support. -/
theorem C2_beyond_width_mask_zero (d1 w1 d2 w2 d3 w3 d4 w4 : ℝ)
    (hw1 : 0 ≤ w1) (hd1 : w1 + 1e-9 ≤ d1) (hw2 : 0 ≤ w2)
    (hd2 : w2 + 1e-9 ≤ d2) (hw3 : 0 ≤ w3) (hd3 : w3 + 1e-9 ≤ d3)
    (hw4 : 0 ≤ w4) (hd4 : w4 + 1e-9 ≤ d4) :
    max (max (aa_from d1 w1) (aa_from d2 w2))
      (max (aa_from d3 w3) (aa_from d4 w4)) = 0 := by
  rw [aa_from_eq_zero hw1 hd1, aa_from_eq_zero hw2 hd2,
    aa_from_eq_zero hw3 hd3, aa_from_eq_zero hw4 hd4]
  simp

/-- Witness for the amended C2 with all four families at `d = 2`, `w = 1`. -/
theorem C2_beyond_width_mask_zero_witness :
    max (max (aa_from 2 1) (aa_from 2 1))
      (max (aa_from 2 1) (aa_from 2 1)) = 0 :=
  C2_beyond_width_mask_zero 2 1 2 1 2 1 2 1 (by norm_num) (by norm_num)
    (by norm_num) (by norm_num) (by norm_num) (by norm_num) (by norm_num)
    (by norm_num)

/-- C8: seam symmetry of the longitude distance computation. When the
half-period `π` is an integer multiple of the step `s` (true for the
configured 60° and 15° steps) and `0 < δ < s/2`, a pixel with longitude
just below `+π` (`λ = π − δ`) and the pixel across the seam
(`λ = −π + δ`) report exactly the same distance `δ` to the line at
`λ = ±π`: `round` picks the nearer multiple regardless of sign. -/
theorem C8_seam_distance_symmetric (s δ : ℝ) (m : ℤ) (hs : 0 < s)
    (hm : Real.pi = (m : ℝ) * s) (hδ0 : 0 < δ) (hδ : δ < s / 2) :
    dist_to_grid (Real.pi - δ) s = δ ∧
      dist_to_grid (-Real.pi + δ) s = δ := by
  have hsne := hs.ne'
  have hq0 : 0 < δ / s := div_pos hδ0 hs
  have hq : δ / s < 1 / 2 := by
    rw [div_lt_iff₀ hs]
    linarith
  constructor
  · unfold dist_to_grid
    have harg : (Real.pi - δ) / s = (m : ℝ) + -(δ / s) := by
      rw [hm]
      field_simp
      ring
    rw [harg, np_round_int_add m (by rw [abs_neg, abs_of_pos hq0]; exact hq)]
    rw [hm]
    have h2 : (m : ℝ) * s - δ - (m : ℝ) * s = -δ := by ring
    rw [h2, abs_neg, abs_of_pos hδ0]
  · unfold dist_to_grid
    have harg : (-Real.pi + δ) / s = ((-m : ℤ) : ℝ) + δ / s := by
      push_cast
      rw [hm]
      field_simp
    rw [harg, np_round_int_add (-m) (by rw [abs_of_pos hq0]; exact hq)]
    rw [hm]
    push_cast
    have h2 : -((m : ℝ) * s) + δ - -(m : ℝ) * s = δ := by ring
    rw [h2, abs_of_pos hδ0]

/-- Witness for C8 at the configured major step `s = π/3` (60°), with
`δ = π/12` and `π = 3·s`. -/
theorem C8_seam_distance_symmetric_witness :
    dist_to_grid (Real.pi - Real.pi / 12) (Real.pi / 3) = Real.pi / 12 ∧
      dist_to_grid (-Real.pi + Real.pi / 12) (Real.pi / 3) = Real.pi / 12 :=
  C8_seam_distance_symmetric (Real.pi / 3) (Real.pi / 12) 3 (by positivity)
    (by push_cast; ring) (by positivity) (by linarith [Real.pi_pos])

/-- C7: with pole taper enabled (the default configuration, floor `0.2`),
any family's tapered half-width `w * taper` at the poles `φ = ±π/2` is at
least `0.2` times its untapered width `w`; at every latitude
`φ ∈ [−π/2, π/2]` with `φ ≠ 0` the tapered width is strictly less than the
untapered width; and the taper factor is exactly `clip(cos φ, 0.2, 1.0)`. -/
theorem C7_pole_taper_bounds (w p : ℝ) (hw : 0 < w)
    (hp1 : -(Real.pi / 2) ≤ p) (hp2 : p ≤ Real.pi / 2) (hp0 : p ≠ 0) :
    0.2 * w ≤ w * taper defaultCfg (Real.pi / 2) ∧
      0.2 * w ≤ w * taper defaultCfg (-(Real.pi / 2)) ∧
      taper defaultCfg p = clip (Real.cos p) 0.2 1.0 ∧
      w * taper defaultCfg p < w := by
  have hpt : defaultCfg.poleTaper = true := rfl
  have htp : ∀ q : ℝ, taper defaultCfg q = clip (Real.cos q) 0.2 1.0 := by
    intro q
    simp [taper, hpt]
  have hpole : taper defaultCfg (Real.pi / 2) = 0.2 := by
    rw [htp, Real.cos_pi_div_two]
    unfold clip
    norm_num
  have hpole2 : taper defaultCfg (-(Real.pi / 2)) = 0.2 := by
    rw [htp, Real.cos_neg, Real.cos_pi_div_two]
    unfold clip
    norm_num
  refine ⟨?_, ?_, htp p, ?_⟩
  · rw [hpole]
    linarith
  · rw [hpole2]
    linarith
  · have hpi := Real.pi_pos
    have hcos1 : Real.cos p < 1 := by
      refine lt_of_le_of_ne (Real.cos_le_one p) ?_
      intro hc
      exact hp0
        ((Real.cos_eq_one_iff_of_lt_of_lt (by linarith) (by linarith)).mp hc)
    have htlt : taper defaultCfg p < 1 := by
      rw [htp]
      unfold clip
      calc min (max (Real.cos p) 0.2) 1.0
          ≤ max (Real.cos p) 0.2 := min_le_left _ _
        _ < 1 := max_lt hcos1 (by norm_num)
    nlinarith

/-- Witness for C7 at `w = 1`, `p = π/2` (a pole, nonzero latitude). -/
theorem C7_pole_taper_bounds_witness :
    0.2 * 1 ≤ 1 * taper defaultCfg (Real.pi / 2) ∧
      0.2 * 1 ≤ 1 * taper defaultCfg (-(Real.pi / 2)) ∧
      taper defaultCfg (Real.pi / 2) = clip (Real.cos (Real.pi / 2)) 0.2 1.0 ∧
      1 * taper defaultCfg (Real.pi / 2) < 1 :=
  C7_pole_taper_bounds 1 (Real.pi / 2) one_pos (by linarith [Real.pi_pos])
    le_rfl (by positivity)

/-- C1: at every pixel of the grid produced by `line_mask_equirect` under
the configured constants, each of the four family coverages (lon-major,
lat-major, lon-minor, lat-minor) is a value in `[0, 1]`, and the composite
intensity mask is exactly the pixel-wise maximum of those four coverages
(a max-combine, never a sum). -/
theorem C1_mask_is_max_of_unit_coverages (x y : ℕ) :
    ∃ a b u v : ℝ,
      t_lon_major defaultCfg x y = some a ∧
      t_lat_major defaultCfg x y = some b ∧
      t_lon_minor defaultCfg x y = some u ∧
      t_lat_minor defaultCfg x y = some v ∧
      0 ≤ a ∧ a ≤ 1 ∧ 0 ≤ b ∧ b ≤ 1 ∧ 0 ≤ u ∧ u ≤ 1 ∧ 0 ≤ v ∧ v ≤ 1 ∧
      line_mask_equirect defaultCfg x y = some (max (max a b) (max u v)) := by
  have h1 := t_lon_major_eq defaultCfg x y
    (radians_ne_zero (by norm_num [defaultCfg]))
  have h2 := t_lat_major_eq defaultCfg x y
    (radians_ne_zero (by norm_num [defaultCfg]))
  have h3 := t_lon_minor_eq defaultCfg x y (by norm_num [defaultCfg])
  have h4 := t_lat_minor_eq defaultCfg x y (by norm_num [defaultCfg])
  exact ⟨_, _, _, _, h1, h2, h3, h4, aa_from_nonneg _ _, aa_from_le_one _ _,
    aa_from_nonneg _ _, aa_from_le_one _ _, aa_from_nonneg _ _,
    aa_from_le_one _ _, aa_from_nonneg _ _, aa_from_le_one _ _,
    line_mask_eq h1 h2 h3 h4⟩

/-- C6 counterexample: with pole taper disabled, the latitude `φ = 1e-7`
is neither the equator (`0 < 1e-7`) nor a pole (`1e-7 < π/2`), yet the
equator-emphasis predicate `|φ| < 1e-6` still fires there, so the
latitude-major half-width at `φ = 1e-7` is already the doubled `7.6` —
equal to the width at `φ = 0`, not half of it as the claim requires. -/
theorem C6_emphasis_band_cex :
    w_lat_major cfgNoTaper 0 = 7.6 ∧ w_lat_major cfgNoTaper 1e-7 = 7.6 ∧
      (0 : ℝ) < 1e-7 ∧ (1e-7 : ℝ) < Real.pi / 2 := by
  refine ⟨?_, ?_, by norm_num, ?_⟩
  · norm_num [w_lat_major, eq_ind, taper, cfgNoTaper, defaultCfg]
  · have hlt : |(1e-7 : ℝ)| < 1e-6 := by
      rw [abs_of_nonneg (by norm_num)]
      norm_num
    unfold w_lat_major eq_ind
    rw [if_pos hlt]
    norm_num [taper, cfgNoTaper, defaultCfg]
  · have h := Real.pi_gt_three
    linarith

/-- C6 amended: with `MAJOR_EQ_SCALE = 2.0` and pole taper disabled, the
effective latitude-major half-width at `φ = 0` is exactly twice the
half-width at any latitude outside the emphasis tolerance
(`|φ| ≥ 1e-6`; this excludes the whole emphasis band, not merely the
exact equator and the poles). -/
theorem C6_equator_width_doubled (p : ℝ) (hp : 1e-6 ≤ |p|) :
    w_lat_major cfgNoTaper 0 = 2 * w_lat_major cfgNoTaper p := by
  have h0 : eq_ind (0 : ℝ) = 1 := by norm_num [eq_ind]
  have h1 : eq_ind p = 0 := by
    unfold eq_ind
    rw [if_neg (not_lt.mpr hp)]
  have ht : ∀ q : ℝ, taper cfgNoTaper q = 1 := fun q => rfl
  unfold w_lat_major
  rw [h0, h1, ht, ht]
  norm_num [cfgNoTaper, defaultCfg]

/-- Witness for the amended C6 at `p = 1` radian. -/
theorem C6_equator_width_doubled_witness :
    w_lat_major cfgNoTaper 0 = 2 * w_lat_major cfgNoTaper 1 :=
  C6_equator_width_doubled 1 (by norm_num)

/-- C3 counterexample: with seam offset `−45/512` degrees (`−π/2048`
radians), the pixel center of column 0 has raw longitude exactly `−π`, and
the wrap `((λ+π) mod 2π) − π` maps it to `−π` itself — a value outside the
claimed canonical range `(−π, π]`. -/
theorem C3_wrap_returns_neg_pi_cex : lam cfgSeam 0 = -Real.pi := by
  unfold lam
  have harg : 2 * Real.pi * ((((0 : ℕ) : ℝ) + 0.5) / cfgSeam.w) - Real.pi +
      radians cfgSeam.seamDeg = -Real.pi := by
    have hw : ((cfgSeam.w : ℕ) : ℝ) = 2048 := by norm_num [cfgSeam, defaultCfg]
    have hs : cfgSeam.seamDeg = -45 / 512 := rfl
    rw [hw, hs]
    unfold radians
    push_cast
    ring
  rw [harg]
  unfold wrapLon pymod
  rw [show -Real.pi + Real.pi = 0 from by ring, zero_div, Int.floor_zero]
  push_cast
  ring

/-- C3 amended: for every seam-offset angle and every pixel column, the
wrapped longitude lies in the half-open range `[−π, π)` — the Python `%`
with positive divisor lands in `[0, 2π)`, so the wrap can return exactly
`−π` (as the counterexample shows) but never `+π` — and for every row of
the configured grid the latitude `π·(0.5 − v)` lies in `[−π/2, π/2]`. -/
theorem C3_coordinate_ranges (seam : ℝ) (x y : ℕ) (hy : y < 1024) :
    -Real.pi ≤ lam { defaultCfg with seamDeg := seam } x ∧
      lam { defaultCfg with seamDeg := seam } x < Real.pi ∧
      -(Real.pi / 2) ≤ phi defaultCfg y ∧ phi defaultCfg y ≤ Real.pi / 2 := by
  have hpi := Real.pi_pos
  have h2pi : (0 : ℝ) < 2 * Real.pi := by linarith
  have hwrap : ∀ t : ℝ, -Real.pi ≤ wrapLon t ∧ wrapLon t < Real.pi := by
    intro t
    unfold wrapLon
    constructor
    · linarith [pymod_nonneg (t + Real.pi) h2pi]
    · linarith [pymod_lt (t + Real.pi) h2pi]
  obtain ⟨hl1, hl2⟩ := hwrap (2 * Real.pi *
    (((x : ℝ) + 0.5) / ({ defaultCfg with seamDeg := seam } : Config).w) -
    Real.pi + radians seam)
  refine ⟨hl1, hl2, ?_, ?_⟩
  · rw [phi_defaultCfg_eq]
    have hy' : (y : ℝ) ≤ 1023 := by exact_mod_cast Nat.lt_succ_iff.mp hy
    have h1 : 0 ≤ Real.pi * (2047 - 2 * (y : ℝ)) :=
      mul_nonneg hpi.le (by linarith)
    nlinarith
  · rw [phi_defaultCfg_eq]
    have hy0 : (0 : ℝ) ≤ (y : ℝ) := Nat.cast_nonneg y
    have h2 : 0 ≤ Real.pi * (y : ℝ) := mul_nonneg hpi.le hy0
    nlinarith

/-- Witness for the amended C3 at seam offset `0`, pixel `(0, 0)`. -/
theorem C3_coordinate_ranges_witness :
    -Real.pi ≤ lam { defaultCfg with seamDeg := 0 } 0 ∧
      lam { defaultCfg with seamDeg := 0 } 0 < Real.pi ∧
      -(Real.pi / 2) ≤ phi defaultCfg 0 ∧ phi defaultCfg 0 ≤ Real.pi / 2 :=
  C3_coordinate_ranges 0 0 0 (by norm_num)

theorem abs_pi_mul_div2048 (t : ℝ) :
    |Real.pi * t / 2048| = Real.pi * |t| / 2048 := by
  rw [abs_div, abs_mul, abs_of_pos Real.pi_pos]
  norm_num

theorem emph_eps_lt {t : ℝ} (h : 1 ≤ |t|) :
    1e-6 < Real.pi * |t| / 2048 := by
  have h3 := Real.pi_gt_three
  have hm : Real.pi * 1 ≤ Real.pi * |t| :=
    mul_le_mul_of_nonneg_left h (by linarith)
  nlinarith

/-- C9: at the configured resolution `W = 2048`, `H = 1024`, no
pixel-center angle satisfies any of the three emphasis predicates
(`|φ| < 1e-6`, `|λ| < 1e-6`, `||λ| − π/2| < 1e-6`): pixel-center angles
sit an odd multiple of `π/2048 > 1e-6` away from every axis. Consequently
both emphasis indicators are `0` and the effective major half-widths equal
the base width `AA_WIDTH_MAJOR` times the taper at every pixel. -/
theorem C9_no_pixel_center_triggers_emphasis (x y : ℕ) (hx : x < 2048)
    (hy : y < 1024) :
    ¬ |phi defaultCfg y| < 1e-6 ∧
    ¬ |lam defaultCfg x| < 1e-6 ∧
    ¬ abs (|lam defaultCfg x| - Real.pi / 2) < 1e-6 ∧
    eq_ind (phi defaultCfg y) = 0 ∧ pm_ind (lam defaultCfg x) = 0 ∧
    w_lon_major defaultCfg (lam defaultCfg x) (phi defaultCfg y) =
      defaultCfg.aaMajor * taper defaultCfg (phi defaultCfg y) ∧
    w_lat_major defaultCfg (phi defaultCfg y) =
      defaultCfg.aaMajor * taper defaultCfg (phi defaultCfg y) := by
  have hoddm : Odd (1023 - 2 * (y : ℤ)) := ⟨511 - (y : ℤ), by ring⟩
  have hphi : phi defaultCfg y =
      Real.pi * (((1023 - 2 * (y : ℤ) : ℤ)) : ℝ) / 2048 := by
    rw [phi_defaultCfg_eq]
    push_cast
    ring
  have hφ : 1e-6 < |phi defaultCfg y| := by
    rw [hphi, abs_pi_mul_div2048]
    exact emph_eps_lt (one_le_abs_cast_of_odd hoddm)
  have hoddn : Odd (2 * (x : ℤ) + 1 - 2048) := ⟨(x : ℤ) - 1024, by ring⟩
  have hlam : lam defaultCfg x =
      Real.pi * (((2 * (x : ℤ) + 1 - 2048 : ℤ)) : ℝ) / 2048 := by
    rw [lam_defaultCfg_eq hx]
    push_cast
    ring
  have hlb : 1e-6 < |lam defaultCfg x| := by
    rw [hlam, abs_pi_mul_div2048]
    exact emph_eps_lt (one_le_abs_cast_of_odd hoddn)
  have hoddj : Odd (|2 * (x : ℤ) + 1 - 2048| - 1024) := by
    obtain ⟨r, hr⟩ := odd_abs.mpr hoddn
    exact ⟨r - 512, by omega⟩
  have hpm2 : 1e-6 < abs (|lam defaultCfg x| - Real.pi / 2) := by
    have habs : |lam defaultCfg x| =
        Real.pi * ((|2 * (x : ℤ) + 1 - 2048| : ℤ) : ℝ) / 2048 := by
      rw [hlam, abs_pi_mul_div2048]
      push_cast
      ring
    rw [habs]
    have heq : Real.pi * ((|2 * (x : ℤ) + 1 - 2048| : ℤ) : ℝ) / 2048 -
        Real.pi / 2 =
        Real.pi * (((|2 * (x : ℤ) + 1 - 2048| - 1024 : ℤ)) : ℝ) / 2048 := by
      push_cast
      ring
    rw [heq, abs_pi_mul_div2048]
    exact emph_eps_lt (one_le_abs_cast_of_odd hoddj)
  have heq_ind : eq_ind (phi defaultCfg y) = 0 := by
    unfold eq_ind
    rw [if_neg (not_lt.mpr hφ.le)]
  have hpm_ind : pm_ind (lam defaultCfg x) = 0 := by
    unfold pm_ind
    rw [if_neg]
    push_neg
    exact ⟨hlb.le, hpm2.le⟩
  refine ⟨not_lt.mpr hφ.le, not_lt.mpr hlb.le, not_lt.mpr hpm2.le, heq_ind,
    hpm_ind, ?_, ?_⟩
  · unfold w_lon_major
    rw [hpm_ind]
    ring
  · unfold w_lat_major
    rw [heq_ind]
    ring

/-- Witness for C9 at the pixel `(0, 0)`. -/
theorem C9_no_pixel_center_triggers_emphasis_witness :
    ¬ |phi defaultCfg 0| < 1e-6 ∧
    ¬ |lam defaultCfg 0| < 1e-6 ∧
    ¬ abs (|lam defaultCfg 0| - Real.pi / 2) < 1e-6 ∧
    eq_ind (phi defaultCfg 0) = 0 ∧ pm_ind (lam defaultCfg 0) = 0 ∧
    w_lon_major defaultCfg (lam defaultCfg 0) (phi defaultCfg 0) =
      defaultCfg.aaMajor * taper defaultCfg (phi defaultCfg 0) ∧
    w_lat_major defaultCfg (phi defaultCfg 0) =
      defaultCfg.aaMajor * taper defaultCfg (phi defaultCfg 0) :=
  C9_no_pixel_center_triggers_emphasis 0 0 (by norm_num) (by norm_num)

/-- C4 counterexample: with a zero major longitude step
(`DLON_DEG_MAJOR = 0`), the major family is *not* routed through the
disabled-family sentinel (only the minors are guarded by the
`if DLON_DEG_MINOR` / `if DLAT_DEG_MINOR` conditionals): `dist_to_grid`
divides `angle` by the zero step, producing NaN (modelled `none`), which
propagates to the composite mask. -/
theorem C4_zero_major_step_nan_cex :
    dlon_major cfgZeroLonMajor 0 = none ∧
      line_mask_equirect cfgZeroLonMajor 0 0 = none := by
  have h0 : radians cfgZeroLonMajor.dlonMajorDeg = 0 := by
    norm_num [cfgZeroLonMajor, radians]
  have h1 : dlon_major cfgZeroLonMajor 0 = none := by
    unfold dlon_major
    rw [h0]
    unfold dist_to_gridE
    rw [if_pos rfl]
  refine ⟨h1, ?_⟩
  have h2 : t_lon_major cfgZeroLonMajor 0 0 = none := by
    unfold t_lon_major
    rw [h1]
    rfl
  unfold line_mask_equirect
  rw [h2]

/-- C4 amended: each *minor* family whose step is configured as the falsy
zero takes the sentinel branch: its distance field is the constant `1e9`,
which exceeds every realizable anti-alias width (widths are at most the
base width `3.1` since the taper is at most `1`), so that family's coverage
is exactly `0` and the composite mask reduces to the maximum of the two
major families; a zero anti-alias width alone causes no division by zero
thanks to the `1e-9` guard. A zero *major* step, however, is not guarded
(see the counterexample). -/
theorem C4_disabled_minor_families_inert (x y : ℕ) :
    dlon_minor cfgNoMinor x = some 1e9 ∧
    dlat_minor cfgNoMinor y = some 1e9 ∧
    t_lon_minor cfgNoMinor x y = some 0 ∧
    t_lat_minor cfgNoMinor x y = some 0 ∧
    ∃ a b : ℝ, t_lon_major cfgNoMinor x y = some a ∧
      t_lat_major cfgNoMinor x y = some b ∧
      line_mask_equirect cfgNoMinor x y = some (max a b) := by
  have h3 : dlon_minor cfgNoMinor x = some 1e9 := by
    unfold dlon_minor
    rw [if_pos (show cfgNoMinor.dlonMinorDeg = 0 from rfl)]
  have h4 : dlat_minor cfgNoMinor y = some 1e9 := by
    unfold dlat_minor
    rw [if_pos (show cfgNoMinor.dlatMinorDeg = 0 from rfl)]
  have hπ := Real.pi_lt_d2
  have hπ0 := Real.pi_pos
  have hpx : (256 : ℝ) ≤ pxX cfgNoMinor := by
    unfold pxX
    have hw : ((cfgNoMinor.w : ℕ) : ℝ) = 2048 := by
      norm_num [cfgNoMinor, defaultCfg]
    rw [hw, le_div_iff₀ (by linarith)]
    nlinarith
  have hpy : (256 : ℝ) ≤ pxY cfgNoMinor := by
    unfold pxY
    have hh : ((cfgNoMinor.h : ℕ) : ℝ) = 1024 := by
      norm_num [cfgNoMinor, defaultCfg]
    rw [hh, le_div_iff₀ hπ0]
    nlinarith
  have hw31 : ∀ p : ℝ, 0 ≤ (3.1 : ℝ) * taper cfgNoMinor p ∧
      (3.1 : ℝ) * taper cfgNoMinor p ≤ 3.1 := by
    intro p
    constructor
    · exact mul_nonneg (by norm_num) (taper_nonneg _ _)
    · calc (3.1 : ℝ) * taper cfgNoMinor p ≤ 3.1 * 1 :=
          mul_le_mul_of_nonneg_left (taper_le_one _ _) (by norm_num)
        _ = 3.1 := mul_one _
  have haam : cfgNoMinor.aaMinor = (3.1 : ℝ) := rfl
  have htmx : t_lon_minor cfgNoMinor x y = some 0 := by
    unfold t_lon_minor
    rw [h3]
    have hz : aa_from (1e9 * pxX cfgNoMinor)
        (w_lon_minor cfgNoMinor (phi cfgNoMinor y)) = 0 := by
      obtain ⟨hw0, hwle⟩ := hw31 (phi cfgNoMinor y)
      refine aa_from_eq_zero ?_ ?_
      · unfold w_lon_minor
        rw [haam]
        exact hw0
      · unfold w_lon_minor
        rw [haam]
        have hgx : 1e9 * (256 : ℝ) ≤ 1e9 * pxX cfgNoMinor :=
          mul_le_mul_of_nonneg_left hpx (by norm_num)
        linarith
    simp [hz]
  have htmy : t_lat_minor cfgNoMinor x y = some 0 := by
    unfold t_lat_minor
    rw [h4]
    have hz : aa_from (1e9 * pxY cfgNoMinor)
        (w_lat_minor cfgNoMinor (phi cfgNoMinor y)) = 0 := by
      obtain ⟨hw0, hwle⟩ := hw31 (phi cfgNoMinor y)
      refine aa_from_eq_zero ?_ ?_
      · unfold w_lat_minor
        rw [haam]
        exact hw0
      · unfold w_lat_minor
        rw [haam]
        have hgy : 1e9 * (256 : ℝ) ≤ 1e9 * pxY cfgNoMinor :=
          mul_le_mul_of_nonneg_left hpy (by norm_num)
        linarith
    simp [hz]
  have h1 := t_lon_major_eq cfgNoMinor x y
    (radians_ne_zero (by norm_num [cfgNoMinor, defaultCfg]))
  have h2 := t_lat_major_eq cfgNoMinor x y
    (radians_ne_zero (by norm_num [cfgNoMinor, defaultCfg]))
  refine ⟨h3, h4, htmx, htmy, _, _, h1, h2, ?_⟩
  rw [line_mask_eq h1 h2 htmx htmy]
  congr 1
  rw [max_self]
  exact max_eq_left (le_max_of_le_left (aa_from_nonneg _ _))

end GenBall
